/-
Verification of the external-resource lifecycle layer of the `lean-lsp-mcp`
server (project-root inference and caching, Lean client session management,
local loogle subprocess supervision, index artifact management, and the
sliding-window rate limiter).

Each Python function of interest is translated into an executable Lean
definition.  Environment-dependent effects (filesystem contents, subprocess
behaviour, JSON parsing of a received line) are passed in explicitly as data,
so the definitions are pure and the control flow of the source is preserved.
-/
import Mathlib

namespace LeanLspMcp

/-! ## Rate limiter (`server.py`, `rate_limited` / inline loogle gate)

The decorator keeps, per category, a list of integer timestamps.  On each
call it first drops timestamps outside the trailing window
(`timestamp > current_time - per_seconds`), then rejects if the remaining
count is at or above the maximum, and otherwise appends the current time.
The inline gate in the `loogle` tool (`now - t < 30`, reject when
`len >= 3`) is the same check with `max_requests = 3`, `per_seconds = 30`.
-/

/-- One admission check of `rate_limited`: returns whether the call is
admitted together with the updated timestamp list for the category. -/
def rateLimitedCheck (maxRequests : Nat) (perSeconds : Int)
    (window : List Int) (currentTime : Int) : Bool × List Int :=
  let kept := window.filter (fun timestamp => timestamp > currentTime - perSeconds)
  if kept.length ≥ maxRequests then
    (false, kept)
  else
    (true, kept ++ [currentTime])

/-- Run a sequence of admission checks (3 requests per 30 s, the loogle
budget), keeping only the evolving window state. -/
def rateWindowRun (times : List Int) : List Int :=
  times.foldl (fun window t => (rateLimitedCheck 3 30 window t).2) []

/-- Admission decisions of a sequence of checks, paired with final window. -/
def rateDecisions (times : List Int) : List Bool × List Int :=
  times.foldl
    (fun acc t =>
      let step := rateLimitedCheck 3 30 acc.2 t
      (acc.1 ++ [step.1], step.2))
    ([], [])

lemma rateLimitedCheck_length_le (maxRequests : Nat) (perSeconds : Int)
    (window : List Int) (t : Int) (h : window.length ≤ maxRequests) :
    ((rateLimitedCheck maxRequests perSeconds window t).2).length ≤ maxRequests := by
  unfold rateLimitedCheck
  have hf : (window.filter (fun ts => ts > t - perSeconds)).length ≤ window.length :=
    List.length_filter_le _ _
  by_cases hc : (window.filter (fun ts => ts > t - perSeconds)).length ≥ maxRequests
  · simp only [hc, if_pos]
    omega
  · simp only [hc, if_neg, not_false_iff]
    simp only [List.length_append, List.length_singleton]
    omega

lemma rateWindowRun_length_le (times : List Int) :
    (rateWindowRun times).length ≤ 3 := by
  unfold rateWindowRun
  suffices h : ∀ w : List Int, w.length ≤ 3 →
      (times.foldl (fun window t => (rateLimitedCheck 3 30 window t).2) w).length ≤ 3 by
    exact h [] (by simp)
  induction times with
  | nil => intro w hw; simpa using hw
  | cons t ts ih =>
    intro w hw
    simp only [List.foldl_cons]
    exact ih _ (rateLimitedCheck_length_le 3 30 w t hw)

/-! ## LoogleManager subprocess supervision (`loogle.py`)

State of the manager (`self.process`, `self._ready`).  The OS process is
modelled by its observable `returncode` (`none` while the process is alive,
`some c` once it has exited).  The environment-dependent outcomes that the
Python code awaits — the result of `check_environment()` (a filesystem
check), whether `create_subprocess_exec` raises, and the first line read
from the child's standard output (`none` models `asyncio.TimeoutError`,
`some ""` models EOF since `readline()` then returns `b""`) — are supplied
as explicit inputs. -/

/-- Observable state of an OS subprocess: its exit code, `none` while it is
still running (`process.returncode is None`). -/
structure Proc where
  returncode : Option Int
  deriving DecidableEq, Repr

/-- The mutable fields of `LoogleManager`: `self.process` and `self._ready`. -/
structure LoogleState where
  process : Option Proc
  ready : Bool
  deriving DecidableEq, Repr

/-- A freshly constructed manager: `self.process = None`, `self._ready = False`. -/
def LoogleState.init : LoogleState := ⟨none, false⟩

/-- `is_running`: `self._ready and self.process is not None and
self.process.returncode is None`. -/
def LoogleState.is_running (st : LoogleState) : Bool :=
  st.ready && (match st.process with
    | none => false
    | some p => p.returncode.isNone)

/-- Environment outcomes consumed by one call of `start()`. -/
structure StartEnv where
  /-- Result of `check_environment()` (binary present, toolchain installed) —
  a pure filesystem observation. -/
  envOk : Bool
  /-- Whether `asyncio.create_subprocess_exec` succeeds (an exception there
  is caught by the outer `except Exception`). -/
  spawnOk : Bool
  /-- First line read from the child's stdout: `none` models a handshake
  timeout (`asyncio.TimeoutError` after 120 s), `some s` a line (with
  `some ""` the EOF case). -/
  firstLine : Option String
  deriving DecidableEq, Repr

/-- Python substring containment: `needle in hay` on the decoded line. -/
def listContainsSub (hay needle : List Char) : Bool :=
  if needle.isPrefixOf hay then true
  else
    match hay with
    | [] => false
    | _ :: t => listContainsSub t needle

/-- `READY_SIGNAL = "Loogle is ready."` -/
def READY_SIGNAL : String := "Loogle is ready."

/-- `self.READY_SIGNAL in decoded` — the readiness-sentinel test applied to
the first line of output. -/
def containsReadySignal (decoded : String) : Bool :=
  listContainsSub decoded.toList READY_SIGNAL.toList

/-- Result of `start()`: the returned boolean, the state after the call, and
(instrumentation) whether a new subprocess was spawned. -/
structure StartOut where
  result : Bool
  state : LoogleState
  spawned : Bool
  deriving DecidableEq, Repr

/-- `LoogleManager.start()` (loogle.py lines 230-271).  Control flow:
early-return `self._ready` if a live process exists; fail on a bad
environment check; spawn (an exception leaves the state untouched); read the
first stdout line; set `self._ready = True` only when the line contains the
readiness sentinel.  Note that on the failure paths `self._ready` is left
unchanged — it is never reset by `start()`. -/
def start (st : LoogleState) (env : StartEnv) : StartOut :=
  match st.process with
  | some p =>
    if p.returncode.isNone then ⟨st.ready, st, false⟩
    else startFresh st env
  | none => startFresh st env
where
  /-- The part of `start()` after the live-process early return. -/
  startFresh (st : LoogleState) (env : StartEnv) : StartOut :=
    if !env.envOk then ⟨false, st, false⟩
    else if !env.spawnOk then ⟨false, st, false⟩
    else
      -- `self.process = await asyncio.create_subprocess_exec(...)`: a new
      -- live process.
      let st1 : LoogleState := { st with process := some ⟨none⟩ }
      match env.firstLine with
      | none => ⟨false, st1, true⟩        -- `except asyncio.TimeoutError`
      | some line =>
        if containsReadySignal line then
          ⟨true, { st1 with ready := true }, true⟩
        else
          -- stderr is drained for diagnostics only; no state change.
          ⟨false, st1, true⟩

/-- Environment outcomes consumed by one call of `stop()`.  Each field
selects a branch of the `try`/`except` structure; none of them escapes
(`Popen.kill` is a no-op when the exit code is already recorded, and both
`asyncio.TimeoutError` handlers and the blanket `except Exception` absorb
the rest). -/
structure StopEnv where
  terminateRaises : Bool
  gracefulWaitTimesOut : Bool
  forcedWaitTimesOut : Bool
  deriving DecidableEq, Repr

/-- `LoogleManager.stop()` (loogle.py lines 315-329).  When no process is
recorded the body is skipped entirely; otherwise every branch of the
`try`/`except` falls through to `self.process = None; self._ready = False`. -/
def stop (st : LoogleState) (env : StopEnv) : LoogleState :=
  match st.process with
  | none => st
  | some _ =>
    let cleared : LoogleState := { st with process := none, ready := false }
    if env.terminateRaises then cleared          -- `except Exception: pass`
    else if env.gracefulWaitTimesOut then
      if env.forcedWaitTimesOut then cleared     -- inner `except ...: pass`
      else cleared                               -- forced kill reaped in time
    else cleared                                 -- graceful termination

/-- One query hit as extracted from the structured payload. -/
structure LoogleHit where
  name : String
  type : String
  module : String
  doc : Option String
  deriving DecidableEq, Repr

/-- The structured payload of one response line,
`{ error?: string, hits?: [...] }` after `json.loads`. -/
structure LooglePayload where
  error : Option String
  hits : List LoogleHit
  deriving DecidableEq, Repr

/-- Python truthiness of `response.get("error")` (absent and `""` are falsy). -/
def errTruthy : Option String → Bool
  | none => false
  | some s => s ≠ ""

/-- Environment outcomes consumed by one call of `query()`. -/
structure QueryEnv where
  /-- Outcomes used by the restart attempt, if one happens. -/
  startEnv : StartEnv
  /-- Whether the subprocess exits between the restart and the re-check of
  readiness at the top of the second loop iteration (the asynchronous
  `Ready --(process exit observed)--> NotStarted` transition). -/
  diesAfterRestart : Bool
  /-- The response line read for the query: `none` models the 30 s read
  timeout. -/
  readLine : Option String
  /-- Result of `json.loads` on that line: `none` models
  `json.JSONDecodeError`. -/
  parsed : Option LooglePayload
  deriving DecidableEq, Repr

/-- The not-Ready test at the top of each `query()` loop iteration:
`not self._ready or self.process is None or self.process.returncode is not None`. -/
def handleNotReady (st : LoogleState) : Bool :=
  match st.process with
  | none => true
  | some p => !st.ready || p.returncode.isSome

/-- The subprocess exiting asynchronously: its return code becomes set. -/
def killProcess (st : LoogleState) : LoogleState :=
  { st with process := st.process.map (fun _ => ⟨some 1⟩) }

/-- The write/read/parse body of `query()` when the handle is Ready
(loogle.py lines 289-311). -/
def queryReadParse (env : QueryEnv) (numResults : Nat) : Except String (List LoogleHit) :=
  match env.readLine with
  | none => .error "Query timeout"
  | some _line =>
    match env.parsed with
    | none => .error "Invalid response"
    | some response =>
      if errTruthy response.error then .ok []
      else .ok (response.hits.take numResults)

/-- Result of `query()`: the returned hits or the raised error message, the
state after the call, and (instrumentation) how many times `start()` was
invoked. -/
structure QueryOut where
  result : Except String (List LoogleHit)
  state : LoogleState
  startCalls : Nat
  deriving Repr

/-- `LoogleManager.query()` (loogle.py lines 273-313), with the
`for attempt in range(2)` loop unrolled.  Attempt 0: if the handle is not
Ready, set `self._ready = False`, call `start()` once, raise
`"Failed to start loogle"` if it fails, and otherwise `continue`;
attempt 1: a second not-Ready observation raises
`"Loogle subprocess not ready"` (because `attempt > 0`) instead of starting
again.  A Ready handle performs the pipe I/O directly. -/
def query (st : LoogleState) (env : QueryEnv) (numResults : Nat) : QueryOut :=
  if handleNotReady st then
    let st1 : LoogleState := { st with ready := false }
    let s := start st1 env.startEnv
    if s.result then
      let st2 := if env.diesAfterRestart then killProcess s.state else s.state
      if handleNotReady st2 then
        ⟨.error "Loogle subprocess not ready", st2, 1⟩
      else
        ⟨queryReadParse env numResults, st2, 1⟩
    else
      ⟨.error "Failed to start loogle", s.state, 1⟩
  else
    ⟨queryReadParse env numResults, st, 0⟩

lemma start_result_true_not_notReady (st : LoogleState) (env : StartEnv)
    (h : (start st env).result = true) :
    handleNotReady (start st env).state = false := by
  unfold start at *
  cases hp : st.process with
  | none =>
    simp only [hp] at h ⊢
    unfold start.startFresh at h ⊢
    by_cases he : env.envOk <;> by_cases hs : env.spawnOk <;>
      simp only [he, hs, Bool.not_true, Bool.not_false, if_true, if_false] at h ⊢
    · cases hl : env.firstLine with
      | none => simp [hl] at h
      | some line =>
        simp only [hl] at h ⊢
        by_cases hc : containsReadySignal line <;> simp [hc, handleNotReady] at h ⊢
    · simp at h
    · simp at h
    · simp at h
  | some p =>
    simp only [hp] at h ⊢
    by_cases hrc : p.returncode.isNone
    · simp only [hrc, if_pos] at h ⊢
      simp only [handleNotReady, hp, h, Bool.not_true, Bool.false_or]
      simpa [Option.isSome_iff_exists, Option.isNone_iff_eq_none] using hrc
    · simp only [hrc, if_neg, not_false_iff] at h ⊢
      unfold start.startFresh at h ⊢
      by_cases he : env.envOk <;> by_cases hs : env.spawnOk <;>
        simp only [he, hs, Bool.not_true, Bool.not_false, if_true, if_false] at h ⊢
      · cases hl : env.firstLine with
        | none => simp [hl] at h
        | some line =>
          simp only [hl] at h ⊢
          by_cases hc : containsReadySignal line <;> simp [hc, handleNotReady] at h ⊢
      · simp at h
      · simp at h
      · simp at h

/-- C10: if `start()` is called while the previously spawned subprocess is
still alive (`returncode is None`), no second subprocess is spawned and no
handshake is attempted: the call immediately returns the current readiness
flag and leaves the state untouched. -/
theorem start_no_respawn_while_alive (st : LoogleState) (env : StartEnv)
    (p : Proc) (hp : st.process = some p) (halive : p.returncode = none) :
    start st env = ⟨st.ready, st, false⟩ := by
  unfold start
  simp [hp, halive]

/-- Witness for `start_no_respawn_while_alive` at a concrete Ready state. -/
theorem start_no_respawn_while_alive_witness :
    start ⟨some ⟨none⟩, true⟩ ⟨true, true, none⟩ = ⟨true, ⟨some ⟨none⟩, true⟩, false⟩ :=
  start_no_respawn_while_alive ⟨some ⟨none⟩, true⟩ ⟨true, true, none⟩ ⟨none⟩ rfl rfl

/-- C3 counterexample: from a state whose process has exited while the ready
flag is still set (`self._ready = True`, `returncode` set), a `start()` whose
first output line does not match the sentinel returns failure but does NOT
leave the handle NotStarted: the ready flag stays `True`, and `is_running`
even reports `True` because a fresh live process was spawned.  This refutes
"any other first line ... leaves the handle not Ready (NotStarted)". -/
theorem start_failed_handshake_keeps_stale_ready_flag :
    (start ⟨some ⟨some 1⟩, true⟩ ⟨true, true, some "error: cannot read index"⟩).result
        = false ∧
    (start ⟨some ⟨some 1⟩, true⟩ ⟨true, true, some "error: cannot read index"⟩).state.ready
        = true ∧
    (start ⟨some ⟨some 1⟩, true⟩
        ⟨true, true, some "error: cannot read index"⟩).state.is_running = true := by
  decide

/-- C3 (amended): provided the handle was not already Ready, no previously
spawned process is still alive, the environment check passes and the spawn
succeeds, `start()` returns success and sets the handle Ready if and only if
the single line read from the subprocess's standard output contains the
readiness sentinel; any other first line, EOF, or a handshake timeout leaves
the handle not Ready and `start()` returns failure.  (The amendment adds the
"was not already Ready" hypothesis: the failure paths leave the ready flag
unchanged rather than clearing it, see the counterexample.) -/
theorem start_ready_iff_sentinel (st : LoogleState) (env : StartEnv)
    (hready : st.ready = false)
    (hnolive : ∀ p, st.process = some p → p.returncode.isSome)
    (henv : env.envOk = true) (hspawn : env.spawnOk = true) :
    ((start st env).state.ready = true ↔
      ∃ s, env.firstLine = some s ∧ containsReadySignal s = true) ∧
    (start st env).result = (start st env).state.ready := by
  have hfresh : start st env = start.startFresh st env := by
    unfold start
    cases hp : st.process with
    | none => rfl
    | some p =>
      have := hnolive p hp
      have hne : p.returncode.isNone = false := by
        simpa [Option.isNone_iff_eq_none, Option.isSome_iff_exists] using this
      simp [hne]
  rw [hfresh]
  unfold start.startFresh
  simp only [henv, hspawn, Bool.not_true, if_false]
  cases hl : env.firstLine with
  | none => simp [hready]
  | some line =>
    by_cases hc : containsReadySignal line
    · simp [hc]
    · simp [hc, hready]

/-- Witness for `start_ready_iff_sentinel`: a fresh handle, a successful
environment check and spawn, and the sentinel line. -/
theorem start_ready_iff_sentinel_witness :
    ((start LoogleState.init ⟨true, true, some "Loogle is ready."⟩).state.ready = true ↔
      ∃ s, (some "Loogle is ready." : Option String) = some s ∧
        containsReadySignal s = true) ∧
    (start LoogleState.init ⟨true, true, some "Loogle is ready."⟩).result =
      (start LoogleState.init ⟨true, true, some "Loogle is ready."⟩).state.ready :=
  start_ready_iff_sentinel LoogleState.init ⟨true, true, some "Loogle is ready."⟩
    rfl (fun p hp => by simp [LoogleState.init] at hp) rfl rfl

/-- C7: `stop()` never raises (it is a total function of the state and of
the termination outcomes), it unconditionally leaves the handle with no
process and not Ready regardless of whether graceful termination or the
forced kill succeeded, and it is idempotent — safe to call twice in a row or
on a never-started handle.  The hypothesis `st.process = none → st.ready =
false` holds of every reachable state (the two fields are only ever cleared
together). -/
theorem stop_clears_state_and_idempotent (st : LoogleState)
    (env env' env₂ : StopEnv) (hinv : st.process = none → st.ready = false) :
    (stop st env).process = none ∧ (stop st env).ready = false ∧
    stop (stop st env) env' = stop st env ∧
    stop st env₂ = stop st env := by
  unfold stop
  cases hp : st.process with
  | none =>
    have hr := hinv hp
    cases st
    simp_all
  | some p =>
    by_cases ht : env.terminateRaises <;>
      by_cases hg : env.gracefulWaitTimesOut <;>
      by_cases hf : env.forcedWaitTimesOut <;>
      by_cases ht₂ : env₂.terminateRaises <;>
      by_cases hg₂ : env₂.gracefulWaitTimesOut <;>
      by_cases hf₂ : env₂.forcedWaitTimesOut <;>
      simp [ht, hg, hf, ht₂, hg₂, hf₂]

/-- Witness for `stop_clears_state_and_idempotent` on a live Ready handle
(and, through idempotence, on the resulting never-started-like state). -/
theorem stop_clears_state_and_idempotent_witness :
    (stop ⟨some ⟨none⟩, true⟩ ⟨false, true, true⟩).process = none ∧
    (stop ⟨some ⟨none⟩, true⟩ ⟨false, true, true⟩).ready = false ∧
    stop (stop ⟨some ⟨none⟩, true⟩ ⟨false, true, true⟩) ⟨false, false, false⟩ =
      stop ⟨some ⟨none⟩, true⟩ ⟨false, true, true⟩ ∧
    stop ⟨some ⟨none⟩, true⟩ ⟨true, false, false⟩ =
      stop ⟨some ⟨none⟩, true⟩ ⟨false, true, true⟩ :=
  stop_clears_state_and_idempotent ⟨some ⟨none⟩, true⟩ ⟨false, true, true⟩
    ⟨false, false, false⟩ ⟨true, false, false⟩ (by intro h; cases h)

/-- C2: a `query()` issued while the handle is not Ready performs exactly one
restart attempt (`startCalls = 1`); if the restart fails the call fails with
`"Failed to start loogle"`; if the restart succeeds but the process is
observed dead again at the top of the second loop iteration the call fails
with `"Loogle subprocess not ready"`; and when the restart succeeds and the
handle stays Ready the call proceeds to the single pipe exchange — in no
case is a second restart attempted. -/
theorem query_exactly_one_restart_attempt (st : LoogleState) (env : QueryEnv)
    (n : Nat) (h : handleNotReady st = true) :
    (query st env n).startCalls = 1 ∧
    ((start { st with ready := false } env.startEnv).result = false →
      (query st env n).result = .error "Failed to start loogle") ∧
    ((start { st with ready := false } env.startEnv).result = true →
      env.diesAfterRestart = true →
      (query st env n).result = .error "Loogle subprocess not ready") ∧
    ((start { st with ready := false } env.startEnv).result = true →
      env.diesAfterRestart = false →
      (query st env n).result = queryReadParse env n) := by
  unfold query
  simp only [h, if_true]
  set s := start { st with ready := false } env.startEnv with hs
  by_cases hr : s.result
  · have hnr : handleNotReady s.state = false := by
      rw [hs]; exact start_result_true_not_notReady _ _ (by rw [← hs]; exact hr)
    by_cases hd : env.diesAfterRestart
    · have hkill : handleNotReady (killProcess s.state) = true := by
        have : ∃ p, s.state.process = some p := by
          unfold handleNotReady at hnr
          cases hps : s.state.process with
          | none => simp [hps] at hnr
          | some p => exact ⟨p, rfl⟩
        obtain ⟨p, hp⟩ := this
        simp [handleNotReady, killProcess, hp]
      simp [hr, hd, hkill]
    · simp only [Bool.not_eq_true] at hd
      simp [hr, hd, hnr]
  · simp only [Bool.not_eq_true] at hr
    simp [hr]

/-- Witness for `query_exactly_one_restart_attempt`: a never-started handle,
a restart that succeeds, and a well-formed empty-hits response. -/
theorem query_exactly_one_restart_attempt_witness :
    (query LoogleState.init
        ⟨⟨true, true, some "Loogle is ready."⟩, false, some "empty-response-line", some ⟨none, []⟩⟩
        8).startCalls = 1 ∧
    (query LoogleState.init
        ⟨⟨true, true, some "Loogle is ready."⟩, false, some "empty-response-line", some ⟨none, []⟩⟩
        8).result = .ok [] := by
  have h := query_exactly_one_restart_attempt LoogleState.init
    ⟨⟨true, true, some "Loogle is ready."⟩, false, some "empty-response-line", some ⟨none, []⟩⟩
    8 (by decide)
  refine ⟨h.1, ?_⟩
  have hres := h.2.2.2 (by decide) rfl
  rw [hres]
  rfl

/-- C9: when the handle is Ready and the backend's single response line
parses as a structured payload whose `error` field is present and non-empty,
`query()` returns an empty result set (treated as "no matches") rather than
raising — even when the payload also carries hits. -/
theorem query_error_field_yields_empty (st : LoogleState) (env : QueryEnv)
    (n : Nat) (e : String) (hits : List LoogleHit)
    (hready : handleNotReady st = false)
    (hline : ∃ l, env.readLine = some l)
    (hresp : env.parsed = some ⟨some e, hits⟩) (he : e ≠ "") :
    (query st env n).result = .ok [] := by
  obtain ⟨l, hl⟩ := hline
  unfold query
  simp only [hready, if_false, Bool.false_eq_true]
  unfold queryReadParse
  simp [hl, hresp, errTruthy, he]

/-- Witness for `query_error_field_yields_empty`: a Ready handle receiving an
explicit error payload that also carries a hit. -/
theorem query_error_field_yields_empty_witness :
    (query ⟨some ⟨none⟩, true⟩
        ⟨⟨true, true, none⟩, false, some "error-response-line",
          some ⟨some "unknown identifier", [⟨"Nat.add", "Nat", "Init", none⟩]⟩⟩
        8).result = .ok [] :=
  query_error_field_yields_empty ⟨some ⟨none⟩, true⟩
    ⟨⟨true, true, none⟩, false, some "error-response-line",
      some ⟨some "unknown identifier", [⟨"Nat.add", "Nat", "Init", none⟩]⟩⟩
    8 "unknown identifier" [⟨"Nat.add", "Nat", "Init", none⟩]
    (by decide) ⟨"error-response-line", rfl⟩ rfl (by decide)

/-! ## Project root inference (`client_utils.py` / `file_utils.py`)

Absolute filesystem paths are modelled as lists of path components, `[]`
being the filesystem root `/`; `os.path.dirname` is `List.dropLast` and
`os.path.abspath` / `Path.resolve` are the identity on these canonical
absolute paths.  The filesystem is the set of existing regular files (the
inference inputs are absolute paths to files).  The `while` loop of
`infer_project_path` visits `file_dir`, its parent, …, and stops before the
filesystem root (`current_dir != os.path.dirname(current_dir)` fails at
`/`); `ancestorChain` enumerates exactly these directories.  The directory
cache (a Python dict) is an association list where an insert shadows earlier
entries; the `""` negative sentinel is `none`.  Iterating over
`set(cache_dirs + [str(project_path)])` writes the same value under every
key, so deduplication and iteration order are immaterial to lookups. -/

/-- An absolute path, as its list of components (`[]` is `/`). -/
abbrev AbsPath := List String

/-- The filesystem: the set of existing (regular) files. -/
structure LeanFS where
  files : List AbsPath
  deriving DecidableEq, Repr

/-- `Path.exists()` / `Path.is_file()` on an absolute path. -/
def fsFileExists (fs : LeanFS) (p : AbsPath) : Bool := p ∈ fs.files

/-- Well-formedness of the modelled filesystem: a file is not also a
directory, i.e. no existing file path is a proper prefix of another. -/
def wfFS (fs : LeanFS) : Prop :=
  ∀ p ∈ fs.files, ∀ q ∈ fs.files, p <+: q → p = q

/-- `valid_lean_project_path` (client_utils.py lines 52-62):
`(path / "lean-toolchain").is_file()`. -/
def valid_lean_project_path (fs : LeanFS) (path : AbsPath) : Bool :=
  fsFileExists fs (path ++ ["lean-toolchain"])

/-- `get_relative_file_path` (file_utils.py lines 5-38), restricted to
absolute `file_path` inputs: if the file exists and lies under the project
root, return its path relative to the root (`Path.relative_to`); otherwise
return `None` (for an absolute path the relative-to-project and
relative-to-cwd fallbacks re-test the same absolute path). -/
def get_relative_file_path (fs : LeanFS) (lean_project_path file_path : AbsPath) :
    Option AbsPath :=
  if fsFileExists fs file_path && lean_project_path.isPrefixOf file_path then
    some (file_path.drop lean_project_path.length)
  else none

/-- The per-process directory cache `lifespan.project_cache`; `none` is the
`""` "checked, none found" sentinel. -/
abbrev ProjectCache := List (AbsPath × Option AbsPath)

/-- `project_cache.get(current_dir)` — `none` is a missing key. -/
def cacheGet : ProjectCache → AbsPath → Option (Option AbsPath)
  | [], _ => none
  | (k, v) :: rest, d => if k = d then some v else cacheGet rest d

/-- Truthiness of `cached_root = project_cache.get(current_dir)`: a missing
key (`None`) and the `""` negative sentinel are both falsy, so the walk
treats them identically. -/
def cacheGetRoot (c : ProjectCache) (d : AbsPath) : Option AbsPath :=
  match cacheGet c d with
  | some (some r) => some r
  | _ => none

/-- The lifespan-context fields read and written by `infer_project_path`. -/
structure InferState where
  lean_project_path : Option AbsPath
  project_cache : ProjectCache
  deriving DecidableEq, Repr

/-- A fresh lifespan context: no bound project, empty cache. -/
def InferState.init : InferState := ⟨none, []⟩

/-- The inner helper `set_project_path` of `infer_project_path`
(client_utils.py lines 89-102): validate that the file is in the project via
`get_relative_file_path`; on success set `lifespan.lean_project_path` and
write every directory of `cache_dirs + [project_path]` into the cache; on
failure change nothing. -/
def set_project_path (fs : LeanFS) (file_path : AbsPath) (st : InferState)
    (project_path : AbsPath) (cache_dirs : List AbsPath) :
    Option AbsPath × InferState :=
  match get_relative_file_path fs project_path file_path with
  | none => (none, st)
  | some _ =>
    (some project_path,
     { lean_project_path := some project_path
       project_cache :=
         (cache_dirs ++ [project_path]).foldl
           (fun c d => (d, some project_path) :: c) st.project_cache })

/-- The list of directories visited by the `while` loop, outermost-file
directory first, stopping before the filesystem root: for a directory with
components `[a, b]` this is `[[a, b], [a]]`. -/
def ancestorChain (dirPath : AbsPath) : List AbsPath :=
  ((List.range dirPath.length).reverse).map (fun n => dirPath.take (n + 1))

/-- The `while` loop of `infer_project_path` (client_utils.py lines
110-124) over the precomputed list of visited directories.  Returns the
result, the final state, and (instrumentation) the list of directories on
which `valid_lean_project_path` — a filesystem test — was evaluated; note
the `elif` evaluates it whenever `cached_root` is falsy, i.e. also on a
cached `""` negative. -/
def walk_cached (fs : LeanFS) (file_path : AbsPath) :
    InferState → List AbsPath → Option AbsPath × InferState × List AbsPath
  | st, [] => (none, st, [])
  | st, current :: rest =>
    match cacheGetRoot st.project_cache current with
    | some cached_root =>
      match set_project_path fs file_path st cached_root [current] with
      | (some result, st1) => (some result, st1, [])
      | (none, st1) => walk_cached fs file_path st1 rest
    | none =>
      if valid_lean_project_path fs current then
        match set_project_path fs file_path st current [current] with
        | (some result, st1) => (some result, st1, [current])
        | (none, st1) =>
          let next := walk_cached fs file_path st1 rest
          (next.1, next.2.1, current :: next.2.2)
      else
        let st1 : InferState :=
          { st with project_cache := (current, none) :: st.project_cache }
        let next := walk_cached fs file_path st1 rest
        (next.1, next.2.1, current :: next.2.2)

/-- `infer_project_path` (client_utils.py lines 65-126): fast path against
the currently bound project, then the cached upward walk.  Same instrumented
result type as `walk_cached`. -/
def infer_project_path (fs : LeanFS) (st : InferState) (file_path : AbsPath) :
    Option AbsPath × InferState × List AbsPath :=
  match st.lean_project_path with
  | some current_project =>
    match set_project_path fs file_path st current_project [file_path.dropLast] with
    | (some _, st1) => (st1.lean_project_path, st1, [])
    | (none, _) => walk_cached fs file_path st (ancestorChain file_path.dropLast)
  | none => walk_cached fs file_path st (ancestorChain file_path.dropLast)

/-- The state invariant maintained by `infer_project_path`: the bound
project path and every positive cache entry point at directories that
really contain the marker file, are not the filesystem root, and (for cache
entries) contain the directory they are recorded under. -/
def CacheInv (fs : LeanFS) (st : InferState) : Prop :=
  (∀ p, st.lean_project_path = some p →
    valid_lean_project_path fs p = true ∧ p ≠ []) ∧
  (∀ d r, (d, some r) ∈ st.project_cache →
    valid_lean_project_path fs r = true ∧ r ≠ [] ∧ r <+: d)

lemma cacheGet_mem {c : ProjectCache} {d : AbsPath} {v : Option AbsPath}
    (h : cacheGet c d = some v) : (d, v) ∈ c := by
  induction c with
  | nil => cases h
  | cons e rest ih =>
    obtain ⟨k, w⟩ := e
    simp only [cacheGet] at h
    split at h
    · next hk =>
        subst hk
        obtain rfl := Option.some.inj h
        exact List.mem_cons_self _ _
    · next hk => exact List.mem_cons_of_mem _ (ih h)

lemma cacheGetRoot_mem {c : ProjectCache} {d r : AbsPath}
    (h : cacheGetRoot c d = some r) : (d, some r) ∈ c := by
  unfold cacheGetRoot at h
  cases hg : cacheGet c d with
  | none => rw [hg] at h; cases h
  | some v =>
    cases v with
    | none => rw [hg] at h; cases h
    | some r' =>
      rw [hg] at h
      simp only [Option.some.injEq] at h
      subst h
      exact cacheGet_mem hg

lemma mem_foldl_cons_cache {v : Option AbsPath} {x : AbsPath × Option AbsPath} :
    ∀ (ds : List AbsPath) (c0 : ProjectCache),
      x ∈ ds.foldl (fun c d => (d, v) :: c) c0 ↔
        x ∈ c0 ∨ ∃ d ∈ ds, x = (d, v) := by
  intro ds
  induction ds with
  | nil => intro c0; simp
  | cons d ds ih =>
    intro c0
    rw [List.foldl_cons, ih]
    constructor
    · rintro (hx | ⟨d', hd', rfl⟩)
      · rcases List.mem_cons.mp hx with hx | hx
        · exact Or.inr ⟨d, List.mem_cons_self _ _, hx⟩
        · exact Or.inl hx
      · exact Or.inr ⟨d', List.mem_cons_of_mem _ hd', rfl⟩
    · rintro (hx | ⟨d', hd', rfl⟩)
      · exact Or.inl (List.mem_cons_of_mem _ hx)
      · rcases List.mem_cons.mp hd' with rfl | hd'
        · exact Or.inl (List.mem_cons_self _ _)
        · exact Or.inr ⟨d', hd', rfl⟩

lemma get_relative_file_path_isSome {fs : LeanFS} {p f : AbsPath} :
    (get_relative_file_path fs p f).isSome ↔
      fsFileExists fs f = true ∧ p <+: f := by
  unfold get_relative_file_path
  by_cases he : fsFileExists fs f <;> by_cases hp : p <+: f <;>
    simp [he, hp, List.isPrefixOf_iff_prefix]

lemma set_project_path_of_none (fs : LeanFS) (f : AbsPath) (st : InferState)
    (p : AbsPath) (cds : List AbsPath)
    (h : get_relative_file_path fs p f = none) :
    set_project_path fs f st p cds = (none, st) := by
  unfold set_project_path
  rw [h]

lemma set_project_path_of_some (fs : LeanFS) (f : AbsPath) (st : InferState)
    (p : AbsPath) (cds : List AbsPath)
    (h : (get_relative_file_path fs p f).isSome) :
    (set_project_path fs f st p cds).1 = some p ∧
    (set_project_path fs f st p cds).2.lean_project_path = some p := by
  unfold set_project_path
  cases hg : get_relative_file_path fs p f with
  | none => rw [hg] at h; cases h
  | some x => exact ⟨rfl, rfl⟩

lemma set_project_path_inv (fs : LeanFS) (f : AbsPath) (st : InferState)
    (p : AbsPath) (cds : List AbsPath)
    (hinv : CacheInv fs st) (hval : valid_lean_project_path fs p = true)
    (hne : p ≠ []) (hcd : ∀ d ∈ cds, p <+: d) :
    CacheInv fs (set_project_path fs f st p cds).2 := by
  unfold set_project_path
  cases hg : get_relative_file_path fs p f with
  | none => exact hinv
  | some x =>
    refine ⟨?_, ?_⟩
    · intro q hq
      simp only [Option.some.injEq] at hq
      subst hq
      exact ⟨hval, hne⟩
    · intro d r hd
      rw [mem_foldl_cons_cache] at hd
      rcases hd with hd | ⟨d', hd', heq⟩
      · exact hinv.2 d r hd
      · rw [Prod.mk.injEq] at heq
        obtain ⟨rfl, hv⟩ := heq
        obtain rfl := Option.some.inj hv
        rcases List.mem_append.mp hd' with hd' | hd'
        · exact ⟨hval, hne, hcd _ hd'⟩
        · simp only [List.mem_singleton] at hd'
          subst hd'
          exact ⟨hval, hne, List.prefix_refl _⟩

lemma valid_prefix_dropLast {fs : LeanFS} {p f : AbsPath}
    (hwf : wfFS fs) (hf : f ∈ fs.files)
    (hval : valid_lean_project_path fs p = true) (hp : p <+: f) :
    p <+: f.dropLast := by
  have hmem : p ++ ["lean-toolchain"] ∈ fs.files := by
    simpa [valid_lean_project_path, fsFileExists] using hval
  have hne : p ≠ f := by
    rintro rfl
    have h2 := hwf p hf (p ++ ["lean-toolchain"]) hmem (List.prefix_append _ _)
    have hlen := congrArg List.length h2
    simp at hlen
  have hlt : p.length < f.length := by
    have hle := hp.length_le
    rcases Nat.lt_or_ge p.length f.length with h | h
    · exact h
    · exact absurd (hp.eq_of_length_le h) hne
  exact List.prefix_of_prefix_length_le hp (List.dropLast_prefix f)
    (by rw [List.length_dropLast]; omega)

lemma ancestorChain_mem {d c : AbsPath} (h : c ∈ ancestorChain d) :
    c <+: d ∧ c ≠ [] := by
  unfold ancestorChain at h
  rw [List.mem_map] at h
  obtain ⟨n, hn, rfl⟩ := h
  rw [List.mem_reverse, List.mem_range] at hn
  refine ⟨List.take_prefix _ _, ?_⟩
  have : (d.take (n + 1)).length = n + 1 := by
    rw [List.length_take]
    omega
  intro hnil
  rw [hnil] at this
  simp at this

lemma ancestorChain_covers {d c : AbsPath} (hne : c ≠ [])
    (hp : c <+: d) : c ∈ ancestorChain d := by
  unfold ancestorChain
  rw [List.mem_map]
  have hlen : 1 ≤ c.length := by
    cases c with
    | nil => exact absurd rfl hne
    | cons a l => simp
  have hle : c.length ≤ d.length := hp.length_le
  refine ⟨c.length - 1, ?_, ?_⟩
  · rw [List.mem_reverse, List.mem_range]
    omega
  · have : c.length - 1 + 1 = c.length := by omega
    rw [this]
    exact (List.prefix_iff_eq_take.mp hp).symm

lemma set_project_path_none_state (fs : LeanFS) (f : AbsPath) (st : InferState)
    (p : AbsPath) (cds : List AbsPath)
    (h : (set_project_path fs f st p cds).1 = none) :
    (set_project_path fs f st p cds).2 = st := by
  unfold set_project_path at h ⊢
  cases hg : get_relative_file_path fs p f with
  | none => rfl
  | some x => rw [hg] at h; cases h

lemma CacheInv.cons_none {fs : LeanFS} {st : InferState}
    (hinv : CacheInv fs st) (current : AbsPath) :
    CacheInv fs ⟨st.lean_project_path, (current, none) :: st.project_cache⟩ := by
  refine ⟨hinv.1, ?_⟩
  intro d r hd
  rcases List.mem_cons.mp hd with heq | hd
  · rw [Prod.mk.injEq] at heq
    exact absurd heq.2 (by simp)
  · exact hinv.2 d r hd

lemma walk_cached_finds_root (fs : LeanFS) (file_path R : AbsPath)
    (hfile : file_path ∈ fs.files)
    (hR : valid_lean_project_path fs R = true)
    (huniq : ∀ d, d <+: file_path.dropLast →
      valid_lean_project_path fs d = true → d = R) :
    ∀ (chain : List AbsPath) (st : InferState), CacheInv fs st →
      (∀ c ∈ chain, c <+: file_path.dropLast) → R ∈ chain →
      (walk_cached fs file_path st chain).1 = some R := by
  intro chain
  induction chain with
  | nil => intro st _ _ hmem; cases hmem
  | cons current rest ih =>
    intro st hinv hpre hmem
    have hcur_pre : current <+: file_path.dropLast :=
      hpre _ (List.mem_cons_self _ _)
    have hdl : file_path.dropLast <+: file_path := List.dropLast_prefix _
    cases hcg : cacheGetRoot st.project_cache current with
    | some r =>
      obtain ⟨hrval, hrne, hrpre⟩ := hinv.2 _ _ (cacheGetRoot_mem hcg)
      have hrfd : r <+: file_path.dropLast := hrpre.trans hcur_pre
      have hsome : (get_relative_file_path fs r file_path).isSome :=
        get_relative_file_path_isSome.mpr
          ⟨by simpa [fsFileExists] using hfile, hrfd.trans hdl⟩
      have hreq : r = R := huniq r hrfd hrval
      obtain ⟨hfst, -⟩ :=
        set_project_path_of_some fs file_path st r [current] hsome
      simp only [walk_cached, hcg]
      cases hsp : set_project_path fs file_path st r [current] with
      | mk res st1 =>
        rw [hsp] at hfst
        simp only at hfst
        subst hfst
        simp [hreq]
    | none =>
      by_cases hv : valid_lean_project_path fs current = true
      · have hceq : current = R := huniq current hcur_pre hv
        have hsome : (get_relative_file_path fs current file_path).isSome :=
          get_relative_file_path_isSome.mpr
            ⟨by simpa [fsFileExists] using hfile, hcur_pre.trans hdl⟩
        obtain ⟨hfst, -⟩ :=
          set_project_path_of_some fs file_path st current [current] hsome
        simp only [walk_cached, hcg, hv, if_true]
        cases hsp : set_project_path fs file_path st current [current] with
        | mk res st1 =>
          rw [hsp] at hfst
          simp only at hfst
          subst hfst
          simp [hceq]
      · have hcne : current ≠ R := by
          intro h
          rw [h, hR] at hv
          exact hv rfl
        have hmem' : R ∈ rest := by
          rcases List.mem_cons.mp hmem with h | h
          · exact absurd h.symm hcne
          · exact h
        have hvf : valid_lean_project_path fs current = false :=
          Bool.not_eq_true _ ▸ eq_false_of_ne_true hv
        simp only [walk_cached, hcg, hvf, Bool.false_eq_true, if_false]
        exact ih _ (hinv.cons_none current)
          (fun c hc => hpre c (List.mem_cons_of_mem _ hc)) hmem'

lemma walk_cached_preserves_inv (fs : LeanFS) (f : AbsPath) :
    ∀ (chain : List AbsPath) (st : InferState), CacheInv fs st →
      (∀ c ∈ chain, c ≠ []) →
      CacheInv fs (walk_cached fs f st chain).2.1 := by
  intro chain
  induction chain with
  | nil => intro st hinv _; simpa [walk_cached] using hinv
  | cons current rest ih =>
    intro st hinv hne
    cases hcg : cacheGetRoot st.project_cache current with
    | some r =>
      obtain ⟨hrval, hrne, hrpre⟩ := hinv.2 _ _ (cacheGetRoot_mem hcg)
      have hinv1 := set_project_path_inv fs f st r [current] hinv hrval hrne
        (by intro d hd; rw [List.mem_singleton] at hd; subst hd; exact hrpre)
      simp only [walk_cached, hcg]
      cases hsp : set_project_path fs f st r [current] with
      | mk res st1 =>
        cases res with
        | some result => rw [hsp] at hinv1; exact hinv1
        | none =>
          have hst : st1 = st := by
            have := set_project_path_none_state fs f st r [current] (by rw [hsp])
            rw [hsp] at this
            exact this
          subst hst
          exact ih _ hinv (fun c hc => hne c (List.mem_cons_of_mem _ hc))
    | none =>
      by_cases hv : valid_lean_project_path fs current = true
      · have hinv1 := set_project_path_inv fs f st current [current] hinv hv
          (hne _ (List.mem_cons_self _ _))
          (by intro d hd; rw [List.mem_singleton] at hd; subst hd;
              exact List.prefix_refl _)
        simp only [walk_cached, hcg, hv, if_true]
        cases hsp : set_project_path fs f st current [current] with
        | mk res st1 =>
          cases res with
          | some result => rw [hsp] at hinv1; exact hinv1
          | none =>
            have hst : st1 = st := by
              have := set_project_path_none_state fs f st current [current] (by rw [hsp])
              rw [hsp] at this
              exact this
            subst hst
            exact ih _ hinv (fun c hc => hne c (List.mem_cons_of_mem _ hc))
      · have hvf : valid_lean_project_path fs current = false :=
          Bool.not_eq_true _ ▸ eq_false_of_ne_true hv
        simp only [walk_cached, hcg, hvf, Bool.false_eq_true, if_false]
        exact ih _ (hinv.cons_none current)
          (fun c hc => hne c (List.mem_cons_of_mem _ hc))

lemma walk_cached_no_marker (fs : LeanFS) (f : AbsPath)
    (hnm : ∀ d, d <+: f.dropLast → valid_lean_project_path fs d = false) :
    ∀ (chain : List AbsPath) (st : InferState), CacheInv fs st →
      (∀ c ∈ chain, c <+: f.dropLast) →
      (walk_cached fs f st chain).1 = none ∧
      (walk_cached fs f st chain).2.2 = chain ∧
      (walk_cached fs f st chain).2.1.project_cache =
        (chain.reverse.map (fun c => (c, (none : Option AbsPath)))) ++
          st.project_cache := by
  intro chain
  induction chain with
  | nil => intro st _ _; exact ⟨rfl, rfl, by simp [walk_cached]⟩
  | cons current rest ih =>
    intro st hinv hpre
    have hcur_pre : current <+: f.dropLast := hpre _ (List.mem_cons_self _ _)
    cases hcg : cacheGetRoot st.project_cache current with
    | some r =>
      obtain ⟨hrval, -, hrpre⟩ := hinv.2 _ _ (cacheGetRoot_mem hcg)
      have := hnm r (hrpre.trans hcur_pre)
      rw [hrval] at this
      cases this
    | none =>
      have hvf : valid_lean_project_path fs current = false :=
        hnm current hcur_pre
      simp only [walk_cached, hcg, hvf, Bool.false_eq_true, if_false]
      obtain ⟨h1, h2, h3⟩ :=
        ih ⟨st.lean_project_path, (current, none) :: st.project_cache⟩
          (hinv.cons_none current)
          (fun c hc => hpre c (List.mem_cons_of_mem _ hc))
      refine ⟨h1, by rw [h2], ?_⟩
      rw [h3]
      simp

lemma cacheGet_negs_append {ks : List AbsPath} {old : ProjectCache}
    {c : AbsPath} (hc : c ∈ ks) :
    cacheGet ((ks.map (fun d => (d, (none : Option AbsPath)))) ++ old) c =
      some none := by
  induction ks with
  | nil => cases hc
  | cons k ks ih =>
    simp only [List.map_cons, List.cons_append, cacheGet]
    by_cases hk : k = c
    · rw [if_pos hk]
    · rw [if_neg hk]
      rcases List.mem_cons.mp hc with rfl | h
      · exact absurd rfl hk
      · exact ih h

lemma infer_eq_of_lpp_none {fs : LeanFS} {st : InferState} {f : AbsPath}
    (hlp : st.lean_project_path = none) :
    infer_project_path fs st f =
      walk_cached fs f st (ancestorChain f.dropLast) := by
  unfold infer_project_path
  rw [hlp]

lemma infer_eq_of_lpp_some {fs : LeanFS} {st : InferState} {f p : AbsPath}
    (hlp : st.lean_project_path = some p) :
    infer_project_path fs st f =
      match set_project_path fs f st p [f.dropLast] with
      | (some _, st1) => (st1.lean_project_path, st1, [])
      | (none, _) => walk_cached fs f st (ancestorChain f.dropLast) := by
  unfold infer_project_path
  rw [hlp]

/-- The fast-path check against the currently bound project fails whenever
no ancestor of the file's directory holds the marker (needed for both calls
of the C4 scenario). -/
lemma fast_path_fails_no_marker {fs : LeanFS} {st : InferState}
    {f p : AbsPath} (hwf : wfFS fs) (hfile : f ∈ fs.files)
    (hinv : CacheInv fs st)
    (hnm : ∀ d, d <+: f.dropLast → valid_lean_project_path fs d = false)
    (hlp : st.lean_project_path = some p) :
    (set_project_path fs f st p [f.dropLast]).1 = none := by
  obtain ⟨hval, -⟩ := hinv.1 p hlp
  unfold set_project_path
  cases hg : get_relative_file_path fs p f with
  | none => rfl
  | some x =>
    exfalso
    have hsome : (get_relative_file_path fs p f).isSome := by rw [hg]; rfl
    obtain ⟨-, hp⟩ := get_relative_file_path_isSome.mp hsome
    have := hnm p (valid_prefix_dropLast hwf hfile hval hp)
    rw [hval] at this
    cases this

/-- C1 preservation: `infer_project_path` maintains the cache invariant on
a well-formed filesystem, for any input file. -/
lemma infer_project_path_preserves_inv (fs : LeanFS) (st : InferState)
    (f : AbsPath) (hwf : wfFS fs) (hinv : CacheInv fs st) :
    CacheInv fs (infer_project_path fs st f).2.1 := by
  have hchain_ne : ∀ c ∈ ancestorChain f.dropLast, c ≠ [] :=
    fun c hc => (ancestorChain_mem hc).2
  cases hlp : st.lean_project_path with
  | none =>
    rw [infer_eq_of_lpp_none hlp]
    exact walk_cached_preserves_inv fs f _ st hinv hchain_ne
  | some p =>
    obtain ⟨hval, hpne⟩ := hinv.1 p hlp
    rw [infer_eq_of_lpp_some hlp]
    cases hsp : set_project_path fs f st p [f.dropLast] with
    | mk res st1 =>
      cases res with
      | none => exact walk_cached_preserves_inv fs f _ st hinv hchain_ne
      | some result =>
        have hsome : (get_relative_file_path fs p f).isSome := by
          by_contra hns
          have hgn : get_relative_file_path fs p f = none := by
            cases hg : get_relative_file_path fs p f with
            | none => rfl
            | some x => rw [hg] at hns; exact absurd rfl hns
          have h0 := set_project_path_of_none fs f st p [f.dropLast] hgn
          rw [hsp] at h0
          cases congrArg Prod.fst h0
        obtain ⟨hex, hp⟩ := get_relative_file_path_isSome.mp hsome
        have hfile : f ∈ fs.files := by
          simpa [fsFileExists] using hex
        have hpd : p <+: f.dropLast := valid_prefix_dropLast hwf hfile hval hp
        have hinv1 := set_project_path_inv fs f st p [f.dropLast]
          hinv hval hpne
          (by intro d hd; rw [List.mem_singleton] at hd; subst hd; exact hpd)
        rw [hsp] at hinv1
        exact hinv1

/-- C1 main lemma: on a well-formed filesystem, for an existing file whose
directory lies under a unique marker directory `R` (itself not the
filesystem root), `infer_project_path` returns `R` from any state
satisfying the cache invariant. -/
lemma infer_project_path_finds_root (fs : LeanFS) (st : InferState)
    (f R : AbsPath) (hwf : wfFS fs) (hfile : f ∈ fs.files)
    (hR : valid_lean_project_path fs R = true) (hRne : R ≠ [])
    (hRpre : R <+: f.dropLast)
    (huniq : ∀ d, d <+: f.dropLast → valid_lean_project_path fs d = true → d = R)
    (hinv : CacheInv fs st) :
    (infer_project_path fs st f).1 = some R := by
  have hwalk := walk_cached_finds_root fs f R hfile hR huniq
    (ancestorChain f.dropLast) st hinv
    (fun c hc => (ancestorChain_mem hc).1)
    (ancestorChain_covers hRne hRpre)
  cases hlp : st.lean_project_path with
  | none => rw [infer_eq_of_lpp_none hlp]; exact hwalk
  | some p =>
    obtain ⟨hval, hpne⟩ := hinv.1 p hlp
    rw [infer_eq_of_lpp_some hlp]
    cases hsp : set_project_path fs f st p [f.dropLast] with
    | mk res st1 =>
      cases res with
      | none => exact hwalk
      | some result =>
        have hsome : (get_relative_file_path fs p f).isSome := by
          by_contra hns
          have hgn : get_relative_file_path fs p f = none := by
            cases hg : get_relative_file_path fs p f with
            | none => rfl
            | some x => rw [hg] at hns; exact absurd rfl hns
          have h0 := set_project_path_of_none fs f st p [f.dropLast] hgn
          rw [hsp] at h0
          cases congrArg Prod.fst h0
        obtain ⟨-, hp⟩ := get_relative_file_path_isSome.mp hsome
        have hpd : p <+: f.dropLast := valid_prefix_dropLast hwf hfile hval hp
        have hpR : p = R := huniq p hpd hval
        obtain ⟨-, hlp1⟩ :=
          set_project_path_of_some fs f st p [f.dropLast] hsome
        rw [hsp] at hlp1
        simp only
        rw [hlp1, hpR]

lemma cacheInv_init (fs : LeanFS) : CacheInv fs InferState.init := by
  constructor
  · intro p hp; cases hp
  · intro d r hd; cases hd

lemma prefix_of_pair {α : Type _} {d : List α} {a b : α} (h : d <+: [a, b]) :
    d = [] ∨ d = [a] ∨ d = [a, b] := by
  have hlen : d.length ≤ 2 := by simpa using h.length_le
  have htake := List.prefix_iff_eq_take.mp h
  have h0 : d.length = 0 ∨ d.length = 1 ∨ d.length = 2 := by omega
  rcases h0 with h0 | h0 | h0
  · exact Or.inl (List.length_eq_zero.mp h0)
  · rw [h0] at htake
    exact Or.inr (Or.inl (by simpa using htake))
  · rw [h0] at htake
    exact Or.inr (Or.inr (by simpa using htake))

/-- Under the no-marker hypothesis the fast path cannot fire, so
`infer_project_path` is exactly the cached upward walk. -/
lemma infer_eq_walk_no_marker {fs : LeanFS} {st : InferState} {f : AbsPath}
    (hwf : wfFS fs) (hfile : f ∈ fs.files) (hinv : CacheInv fs st)
    (hnm : ∀ d, d <+: f.dropLast → valid_lean_project_path fs d = false) :
    infer_project_path fs st f =
      walk_cached fs f st (ancestorChain f.dropLast) := by
  cases hlp : st.lean_project_path with
  | none => exact infer_eq_of_lpp_none hlp
  | some p =>
    rw [infer_eq_of_lpp_some hlp]
    have hfp := fast_path_fails_no_marker hwf hfile hinv hnm hlp
    cases hsp : set_project_path fs f st p [f.dropLast] with
    | mk res st1 =>
      cases res with
      | none => rfl
      | some result =>
        rw [hsp] at hfp
        cases hfp

/-- C1 (amended): on a well-formed filesystem, for every existing file whose
directory D lies under a project root R — where R is not the filesystem root
and is the only ancestor directory of D (including D itself) containing the
marker file — `infer_project_path` returns R, both when the directory cache
is empty (the fresh state satisfies the invariant) and when it is warm from
earlier lookups (every call preserves the invariant, and from any invariant
state the result is R).  The amendment adds the uniqueness and
non-filesystem-root conditions on R: with nested markers the code returns
the innermost root (see the counterexample), and the walk stops before
`/`. -/
theorem infer_project_path_returns_unique_root :
    (∀ fs : LeanFS, CacheInv fs InferState.init) ∧
    (∀ (fs : LeanFS) (st : InferState) (f : AbsPath),
      wfFS fs → CacheInv fs st →
      CacheInv fs (infer_project_path fs st f).2.1) ∧
    (∀ (fs : LeanFS) (st : InferState) (f R : AbsPath),
      wfFS fs → f ∈ fs.files →
      valid_lean_project_path fs R = true → R ≠ [] → R <+: f.dropLast →
      (∀ d, d <+: f.dropLast → valid_lean_project_path fs d = true → d = R) →
      CacheInv fs st →
      (infer_project_path fs st f).1 = some R) :=
  ⟨cacheInv_init,
   fun fs st f hwf hinv => infer_project_path_preserves_inv fs st f hwf hinv,
   fun fs st f R hwf hfile hR hRne hRpre huniq hinv =>
     infer_project_path_finds_root fs st f R hwf hfile hR hRne hRpre huniq hinv⟩

/-- The filesystem of the C1 witness: one project root `/a` containing the
marker and the file `/a/b/f.lean`. -/
def fsOneRoot : LeanFS :=
  ⟨[["a", "lean-toolchain"], ["a", "b", "f.lean"]]⟩

/-- Witness for `infer_project_path_returns_unique_root`: resolving
`/a/b/f.lean` from a cold cache returns the unique root `/a`. -/
theorem infer_project_path_returns_unique_root_witness :
    (infer_project_path fsOneRoot InferState.init ["a", "b", "f.lean"]).1 =
      some ["a"] := by
  refine infer_project_path_returns_unique_root.2.2 fsOneRoot InferState.init
    ["a", "b", "f.lean"] ["a"] (by unfold wfFS; decide) (by decide) (by decide) (by decide)
    (by decide) ?_ (cacheInv_init _)
  intro d hd hv
  rcases prefix_of_pair hd with rfl | rfl | rfl
  · exact absurd hv (by decide)
  · rfl
  · exact absurd hv (by decide)

/-- The filesystem of the C1 counterexample: nested markers at `/p` and
`/p/q`, and the file `/p/q/f.lean`. -/
def fsNested : LeanFS :=
  ⟨[["p", "lean-toolchain"], ["p", "q", "lean-toolchain"],
    ["p", "q", "f.lean"]]⟩

/-- C1 counterexample: `/p` is a resolvable project root (it holds the
marker and the file `/p/q/f.lean` resolves under it), yet resolving that
file from an empty cache returns the nested root `/p/q`, not `/p` — the
claim's universally quantified "returns R" fails as stated. -/
theorem infer_project_path_nested_roots_counterexample :
    valid_lean_project_path fsNested ["p"] = true ∧
    (get_relative_file_path fsNested ["p"] ["p", "q", "f.lean"]).isSome = true ∧
    (infer_project_path fsNested InferState.init ["p", "q", "f.lean"]).1 =
      some ["p", "q"] ∧
    some ["p", "q"] ≠ (some ["p"] : Option AbsPath) := by
  decide

/-- C4 (amended): for an existing file none of whose ancestor directories
holds the marker file, resolution returns `none` and records a negative
cache entry for every ancestor directory visited; however, the cached
negatives do not short-circuit the filesystem test — a second resolution in
the same tree walks the same directories and re-evaluates the marker test
(`valid_lean_project_path`) on every one of them again, because the `""`
sentinel is falsy and the walk's `elif` re-checks the filesystem.  (The
amendment replaces the claimed "no ancestor directory is re-checked" by the
re-checking actually performed; only positive cache entries short-circuit.) -/
theorem infer_no_marker_negatives_recorded_but_rechecked
    (fs : LeanFS) (st : InferState) (f : AbsPath)
    (hwf : wfFS fs) (hfile : f ∈ fs.files) (hinv : CacheInv fs st)
    (hnm : ∀ d, d <+: f.dropLast → valid_lean_project_path fs d = false) :
    (infer_project_path fs st f).1 = none ∧
    (∀ c ∈ ancestorChain f.dropLast,
      cacheGet (infer_project_path fs st f).2.1.project_cache c = some none) ∧
    (infer_project_path fs st f).2.2 = ancestorChain f.dropLast ∧
    (infer_project_path fs (infer_project_path fs st f).2.1 f).2.2 =
      ancestorChain f.dropLast := by
  have hpre : ∀ c ∈ ancestorChain f.dropLast, c <+: f.dropLast :=
    fun c hc => (ancestorChain_mem hc).1
  have hw := infer_eq_walk_no_marker hwf hfile hinv hnm
  obtain ⟨h1, h2, h3⟩ :=
    walk_cached_no_marker fs f hnm (ancestorChain f.dropLast) st hinv hpre
  have hinv1 : CacheInv fs (infer_project_path fs st f).2.1 :=
    infer_project_path_preserves_inv fs st f hwf hinv
  have hw2 := infer_eq_walk_no_marker hwf hfile hinv1 hnm
  obtain ⟨-, h2', -⟩ :=
    walk_cached_no_marker fs f hnm (ancestorChain f.dropLast)
      (infer_project_path fs st f).2.1 hinv1 hpre
  refine ⟨by rw [hw]; exact h1, ?_, by rw [hw]; exact h2, by rw [hw2]; exact h2'⟩
  intro c hc
  rw [hw, h3]
  exact cacheGet_negs_append (by rwa [List.mem_reverse])

/-- The filesystem of the C4 witness and counterexample: the file
`/a/b/f.lean` with no marker anywhere. -/
def fsNoMarker : LeanFS := ⟨[["a", "b", "f.lean"]]⟩

/-- Witness for `infer_no_marker_negatives_recorded_but_rechecked` on
`/a/b/f.lean` in a markerless tree, from a cold cache. -/
theorem infer_no_marker_negatives_recorded_but_rechecked_witness :
    (infer_project_path fsNoMarker InferState.init ["a", "b", "f.lean"]).1 =
      none ∧
    (∀ c ∈ ancestorChain (["a", "b", "f.lean"] : AbsPath).dropLast,
      cacheGet (infer_project_path fsNoMarker InferState.init
        ["a", "b", "f.lean"]).2.1.project_cache c = some none) ∧
    (infer_project_path fsNoMarker InferState.init
      ["a", "b", "f.lean"]).2.2 = ancestorChain
        (["a", "b", "f.lean"] : AbsPath).dropLast ∧
    (infer_project_path fsNoMarker
      (infer_project_path fsNoMarker InferState.init ["a", "b", "f.lean"]).2.1
      ["a", "b", "f.lean"]).2.2 =
        ancestorChain (["a", "b", "f.lean"] : AbsPath).dropLast := by
  refine infer_no_marker_negatives_recorded_but_rechecked fsNoMarker
    InferState.init ["a", "b", "f.lean"] (by unfold wfFS; decide) (by decide)
    (cacheInv_init _) ?_
  intro d hd
  rcases prefix_of_pair hd with rfl | rfl | rfl <;> decide

/-- C4 counterexample: in a markerless tree, the first resolution evaluates
the marker test on both visited ancestors, and the second resolution — with
all negatives cached — evaluates it on exactly the same directories again:
the cached negatives do not prevent any filesystem re-check. -/
theorem infer_negative_cache_rechecks_counterexample :
    (infer_project_path fsNoMarker InferState.init
      ["a", "b", "f.lean"]).2.2 = [["a", "b"], ["a"]] ∧
    (infer_project_path fsNoMarker
      (infer_project_path fsNoMarker InferState.init ["a", "b", "f.lean"]).2.1
      ["a", "b", "f.lean"]).2.2 = [["a", "b"], ["a"]] ∧
    ¬ ((infer_project_path fsNoMarker
      (infer_project_path fsNoMarker InferState.init ["a", "b", "f.lean"]).2.1
      ["a", "b", "f.lean"]).2.2 = []) := by
  decide

/-! ## Client session management (`client_utils.py`, `startup_client`)

The lifespan context carries the resolved project path and the (at most one)
live `LeanLSPClient`; the client object is modelled by the project path it
was constructed for.  Whether the `LeanLSPClient` constructor succeeds is an
environment input (a construction failure propagates uncaught).  The calls
counted by the instrumentation fields are constructions and closes of
engine sessions. -/

/-- A `LeanLSPClient` handle, identified by its `project_path`. -/
structure LeanClient where
  project_path : List String
  deriving DecidableEq, Repr

/-- The lifespan-context fields touched by `startup_client`. -/
structure AppState where
  lean_project_path : Option (List String)
  client : Option LeanClient
  deriving DecidableEq, Repr

/-- Result of `startup_client`: the new context on success or the propagated
error, plus (instrumentation) how many clients were constructed and closed. -/
structure StartupOut where
  result : Except String AppState
  constructed : Nat
  closed : Nat
  deriving Repr

/-- `startup_client` (client_utils.py lines 17-49), run under `CLIENT_LOCK`:
fail if no project path is set; reuse the existing client when its
`project_path` equals the current one; otherwise close the old client (if
any) and construct a new one bound to the current path.  `constructOk` is
whether the `LeanLSPClient(...)` constructor succeeds. -/
def startup_client (st : AppState) (constructOk : Bool) : StartupOut :=
  match st.lean_project_path with
  | none => ⟨.error "lean project path is not set.", 0, 0⟩
  | some lpp =>
    match st.client with
    | some c =>
      if c.project_path = lpp then
        ⟨.ok st, 0, 0⟩                 -- client already set up correctly
      else if constructOk then
        ⟨.ok { st with client := some ⟨lpp⟩ }, 1, 1⟩
      else
        ⟨.error "client construction failed", 0, 1⟩
    | none =>
      if constructOk then
        ⟨.ok { st with client := some ⟨lpp⟩ }, 1, 0⟩
      else
        ⟨.error "client construction failed", 0, 0⟩

/-- C5: `startup_client` is idempotent for a fixed bound root.  A call that
finds a client already bound to the current root returns immediately,
constructing and closing nothing; consequently two consecutive calls with
the same resolved root construct an engine session at most once (here:
exactly once from an unbound context, and zero times on the second call). -/
theorem startup_client_idempotent_for_fixed_root (st : AppState)
    (root : List String) (b : Bool)
    (hroot : st.lean_project_path = some root)
    (hclient : st.client = some ⟨root⟩) :
    startup_client st b = ⟨.ok st, 0, 0⟩ ∧
    ∀ st' : AppState,
      st'.lean_project_path = some root → st'.client = none →
      (startup_client st' true).result = .ok { st' with client := some ⟨root⟩ } ∧
      (startup_client st' true).constructed = 1 ∧
      startup_client { st' with client := some ⟨root⟩ } b =
        ⟨.ok { st' with client := some ⟨root⟩ }, 0, 0⟩ := by
  constructor
  · unfold startup_client
    rw [hroot, hclient]
    simp
  · intro st' h1 h2
    unfold startup_client
    rw [h1, h2]
    simp

/-- Witness for `startup_client_idempotent_for_fixed_root`: two calls from an
unbound context; the first constructs the one session, the second reuses it. -/
theorem startup_client_idempotent_for_fixed_root_witness :
    startup_client ⟨some ["home", "proj"], some ⟨["home", "proj"]⟩⟩ true =
      ⟨.ok ⟨some ["home", "proj"], some ⟨["home", "proj"]⟩⟩, 0, 0⟩ ∧
    ∀ st' : AppState,
      st'.lean_project_path = some ["home", "proj"] → st'.client = none →
      (startup_client st' true).result =
        .ok { st' with client := some ⟨["home", "proj"]⟩ } ∧
      (startup_client st' true).constructed = 1 ∧
      startup_client { st' with client := some ⟨["home", "proj"]⟩ } true =
        ⟨.ok { st' with client := some ⟨["home", "proj"]⟩ }, 0, 0⟩ :=
  startup_client_idempotent_for_fixed_root
    ⟨some ["home", "proj"], some ⟨["home", "proj"]⟩⟩ ["home", "proj"] true rfl rfl

/-! ## Index artifact management (`loogle.py`, `_cleanup_old_indices` /
`_build_index`)

The contents of the index directory are modelled as the list of file names
it contains; the fingerprint (`_get_mathlib_version()`, the first 12
characters of the pinned mathlib revision) is passed as a parameter.  The
glob pattern `*.idx` matches names ending in `.idx`. -/

/-- Contents of the loogle cache's index directory. -/
structure IndexDirState where
  exists_ : Bool
  files : List String
  deriving DecidableEq, Repr

/-- `_get_index_path()`: the name of the index artifact for a fingerprint,
`mathlib-<fingerprint>.idx` (the `index/` directory prefix is implicit). -/
def indexFileName (fingerprint : String) : String :=
  "mathlib-" ++ fingerprint ++ ".idx"

/-- Whether a file name matches the glob `*.idx`. -/
def matchesIdxGlob (name : String) : Bool :=
  ".idx".toList.isSuffixOf name.toList

/-- `_cleanup_old_indices` (loogle.py lines 187-198): if the index directory
exists, unlink every `*.idx` file other than the current fingerprint's. -/
def cleanup_old_indices (fingerprint : String) (dir : IndexDirState) :
    IndexDirState :=
  if !dir.exists_ then dir
  else
    { dir with
      files := dir.files.filter
        (fun name => !matchesIdxGlob name || name = indexFileName fingerprint) }

/-- `_build_index` (loogle.py lines 200-217): return the existing artifact if
present; give up if the binary is missing; otherwise create the directory,
prune other fingerprints' artifacts, run the backend in `--write-index` mode
(`backendWritesIndex` says whether that run produces the file), and succeed
iff the artifact now exists. -/
def build_index (fingerprint : String) (isInstalled backendWritesIndex : Bool)
    (dir : IndexDirState) : Option String × IndexDirState :=
  if indexFileName fingerprint ∈ dir.files then
    (some (indexFileName fingerprint), dir)
  else if !isInstalled then (none, dir)
  else
    let dir1 := { dir with exists_ := true }     -- mkdir(parents, exist_ok)
    let dir2 := cleanup_old_indices fingerprint dir1
    let dir3 :=
      if backendWritesIndex then
        { dir2 with files := dir2.files ++ [indexFileName fingerprint] }
      else dir2
    (if indexFileName fingerprint ∈ dir3.files then
        some (indexFileName fingerprint)
      else none,
     dir3)

/-- C8: when the artifact for the current fingerprint is absent and the
backend is installed, building the index deletes every index file belonging
to other fingerprints — never the current one — before writing, so a
successful build leaves exactly one index file on disk, tagged with the
current fingerprint.  In particular any pre-existing artifact of a different
fingerprint (such as `v1` while building `v2`) is gone. -/
theorem build_index_leaves_exactly_current (fingerprint old : String)
    (isInstalled : Bool) (dir : IndexDirState)
    (habsent : indexFileName fingerprint ∉ dir.files)
    (hinstalled : isInstalled = true)
    (hold : old ∈ dir.files) (holdIdx : matchesIdxGlob old = true)
    (holdNe : old ≠ indexFileName fingerprint) :
    (build_index fingerprint isInstalled true dir).1 =
      some (indexFileName fingerprint) ∧
    old ∉ ((build_index fingerprint isInstalled true dir).2).files ∧
    ((build_index fingerprint isInstalled true dir).2).files.filter
        matchesIdxGlob = [indexFileName fingerprint] := by
  subst hinstalled
  have hcur : matchesIdxGlob (indexFileName fingerprint) = true := by
    unfold matchesIdxGlob indexFileName
    rw [List.isSuffixOf_iff_suffix]
    show ".idx".data <:+ ("mathlib-" ++ (fingerprint ++ ".idx")).data
    rw [String.data_append, String.data_append]
    simpa [List.append_assoc] using
      List.suffix_append ("mathlib-".data ++ fingerprint.data) ".idx".data
  have hfiles : (build_index fingerprint true true dir).2.files =
      dir.files.filter
        (fun name => !matchesIdxGlob name || name = indexFileName fingerprint)
      ++ [indexFileName fingerprint] := by
    unfold build_index cleanup_old_indices
    simp [habsent]
  have hfst : (build_index fingerprint true true dir).1 =
      some (indexFileName fingerprint) := by
    unfold build_index cleanup_old_indices
    simp [habsent]
  refine ⟨hfst, ?_, ?_⟩
  · rw [hfiles]
    simp only [List.mem_append, List.mem_filter, List.mem_singleton]
    rintro (⟨-, hkeep⟩ | heq)
    · simp only [holdIdx, Bool.not_true, Bool.false_or, decide_eq_true_eq] at hkeep
      exact holdNe hkeep
    · exact holdNe heq
  · rw [hfiles, List.filter_append]
    have h1 : (dir.files.filter
        (fun name => !matchesIdxGlob name ||
          name = indexFileName fingerprint)).filter matchesIdxGlob = [] := by
      rw [List.filter_filter, List.eq_nil_iff_forall_not_mem]
      intro name hname
      simp only [List.mem_filter, Bool.and_eq_true, Bool.or_eq_true,
        Bool.not_eq_true', decide_eq_true_eq] at hname
      obtain ⟨hmem, hglob, hkeep⟩ := hname
      rcases hkeep with hno | heq
      · rw [hglob] at hno; exact absurd hno (by simp)
      · rw [heq] at hmem; exact habsent hmem
    have h2 : [indexFileName fingerprint].filter matchesIdxGlob =
        [indexFileName fingerprint] := by
      simp [hcur]
    rw [h1, h2, List.nil_append]

/-- Witness for `build_index_leaves_exactly_current`: building `v2`'s index
while `v1`'s artifact (and an unrelated file) are on disk. -/
theorem build_index_leaves_exactly_current_witness :
    (build_index "v2" true true ⟨true, ["mathlib-v1.idx", "README"]⟩).1 =
      some (indexFileName "v2") ∧
    "mathlib-v1.idx" ∉
      ((build_index "v2" true true ⟨true, ["mathlib-v1.idx", "README"]⟩).2).files ∧
    ((build_index "v2" true true
        ⟨true, ["mathlib-v1.idx", "README"]⟩).2).files.filter matchesIdxGlob =
      [indexFileName "v2"] :=
  build_index_leaves_exactly_current "v2" "mathlib-v1.idx" true
    ⟨true, ["mathlib-v1.idx", "README"]⟩ (by decide) rfl (by decide)
    (by decide) (by decide)

/-- C6: With the per-category sliding-window limit of 3 requests per 30
seconds: three calls starting from an empty window are admitted; a fourth
call within the same 30-second window is rejected and its timestamp is not
recorded (the window still holds the three admitted timestamps); a call
issued after the window has fully elapsed is admitted; and after any
sequence of checks at most 3 recorded timestamps fall within any trailing
30-second interval. -/
theorem rate_limited_sliding_window_behavior :
    (rateDecisions [0, 0, 0, 10]).1 = [true, true, true, false] ∧
    (rateDecisions [0, 0, 0, 10]).2 = [0, 0, 0] ∧
    (rateDecisions [0, 0, 0, 10, 31]).1 = [true, true, true, false, true] ∧
    ∀ times : List Int, ∀ now : Int,
      ((rateWindowRun times).filter (fun t => t > now - 30)).length ≤ 3 := by
  refine ⟨by decide, by decide, by decide, fun times now => ?_⟩
  exact le_trans (List.length_filter_le _ _) (rateWindowRun_length_le times)

end LeanLspMcp
